import Mathlib

/-!
Verification of the tag-parsing and flag-binding logic of the `cobraargs`
library (`arg.go`).

Go strings are modelled as lists of characters (`GoStr`); the source only
ever indexes and slices its strings at ASCII positions (field names, tag
keys), where Go's byte-level operations and character-level operations
agree, and both separators used with `strings.Split` are single characters.
Fallible Go functions returning `(value, error)` pairs whose value is
ignored on error are modelled with `Except`; panics of the attach helpers
are modelled with an explicit `PanicKind` error type.
-/

/-- A Go string, modelled as its list of characters (ASCII fragment). -/
abbrev GoStr := List Char

/-- `strings.ToLower`, on the ASCII fragment: lower-case each character. -/
def goToLower (s : GoStr) : GoStr := s.map Char.toLower

/-- `strings.Split s sep` for a one-character separator `sep`
(both separators in the source, `","` and `"="`, are one character).
As in Go, splitting the empty string yields `[""]`. -/
def splitChar (sep : Char) : GoStr → List GoStr
  | [] => [[]]
  | c :: rest =>
    match splitChar sep rest with
    | [] => if c = sep then [[], []] else [[c]]
    | h :: t => if c = sep then [] :: h :: t else (c :: h) :: t

/-- `strconv.ParseBool`: accepts exactly the twelve Go boolean literals. -/
def ParseBool (s : GoStr) : Option Bool :=
  if s = "1".data ∨ s = "t".data ∨ s = "T".data ∨
     s = "TRUE".data ∨ s = "true".data ∨ s = "True".data then some true
  else if s = "0".data ∨ s = "f".data ∨ s = "F".data ∨
     s = "FALSE".data ∨ s = "false".data ∨ s = "False".data then some false
  else none

/-- Digit-string value used by `Atoi`: `none` unless the string is a
non-empty run of decimal digits. -/
def atoiDigits (s : GoStr) : Option Nat :=
  if s = [] then none
  else if s.all Char.isDigit then
    some (s.foldl (fun n c => n * 10 + (c.toNat - 48)) 0)
  else none

/-- `strconv.Atoi`: optional sign, decimal digits, 64-bit range check. -/
def Atoi (s : GoStr) : Option Int :=
  match s with
  | '+' :: rest => (atoiDigits rest).bind fun n =>
      if n ≤ 2 ^ 63 - 1 then some (n : Int) else none
  | '-' :: rest => (atoiDigits rest).bind fun n =>
      if n ≤ 2 ^ 63 then some (-(n : Int)) else none
  | l => (atoiDigits l).bind fun n =>
      if n ≤ 2 ^ 63 - 1 then some (n : Int) else none

/-- The `Argument` struct of `arg.go`; Go zero values as defaults. -/
structure Argument where
  Required : Bool := false
  LongName : GoStr := []
  ShortName : GoStr := []
  HasDefaultValue : Bool := false
  DefaultValue : GoStr := []
deriving Repr, DecidableEq

/-- The error kinds produced by `ParseArgFromField` and its helpers,
one per `fmt.Errorf` site, carrying the data the format string carries. -/
inductive ParseError where
  | fieldNameTooShort (fieldName : GoStr)
  | malformedTagItem (index : Nat) (fieldName : GoStr)
  | invalidBooleanValue (fieldName tagName tagValue : GoStr)
  | shortNameTooLong (fieldName tagName tagValue : GoStr)
deriving Repr, DecidableEq

/-- A `reflect.StructField` restricted to what the source reads: the field
name and the value of its `arg` tag (`Tag.Get` returns the empty string
when the tag is absent). -/
structure StructField where
  Name : GoStr
  argTag : GoStr
deriving Repr, DecidableEq

instance {ε α : Type} [DecidableEq ε] [DecidableEq α] :
    DecidableEq (Except ε α) := fun
  | .error e, .error e' =>
    if h : e = e' then .isTrue (by rw [h]) else .isFalse (by simp [h])
  | .error _, .ok _ => .isFalse (by simp)
  | .ok _, .error _ => .isFalse (by simp)
  | .ok a, .ok a' =>
    if h : a = a' then .isTrue (by rw [h]) else .isFalse (by simp [h])

/-- `processArgRequired`: parse the value as a boolean into `Required`. -/
def processArgRequired (argument : Argument) (fieldName tagName tagValue : GoStr) :
    Except ParseError Argument :=
  match ParseBool tagValue with
  | none => .error (.invalidBooleanValue fieldName tagName tagValue)
  | some required => .ok { argument with Required := required }

/-- `processArgLongName`: override `LongName` only when the value is
non-empty. -/
def processArgLongName (argument : Argument) (tagValue : GoStr) : Argument :=
  if tagValue.length > 0 then { argument with LongName := tagValue } else argument

/-- `processArgDefaultValue`: record the value verbatim and set the flag. -/
def processArgDefaultValue (argument : Argument) (tagValue : GoStr) : Argument :=
  { argument with DefaultValue := tagValue, HasDefaultValue := true }

/-- `processArgShortName`: reject values longer than one character,
otherwise store the value lower-cased. -/
def processArgShortName (argument : Argument) (fieldName tagName tagValue : GoStr) :
    Except ParseError Argument :=
  if tagValue.length > 1 then .error (.shortNameTooLong fieldName tagName tagValue)
  else .ok { argument with ShortName := goToLower tagValue }

/-- `processArg`: dispatch on the (already lower-cased) tag key;
unrecognized keys are ignored. -/
def processArg (argument : Argument) (fieldName tagName tagValue : GoStr) :
    Except ParseError Argument :=
  if tagName = "required".data then
    processArgRequired argument fieldName tagName tagValue
  else if tagName = "longname".data then
    .ok (processArgLongName argument tagValue)
  else if tagName = "defaultvalue".data then
    .ok (processArgDefaultValue argument tagValue)
  else if tagName = "shortname".data then
    processArgShortName argument fieldName tagName tagValue
  else .ok argument

/-- The body of one iteration of the tag-item loop of `ParseArgFromField`:
split the item on `=`, reject unless exactly two parts, dispatch. -/
def processItem (fieldName : GoStr) (argument : Argument) (index : Nat)
    (argItem : GoStr) : Except ParseError Argument :=
  match splitChar '=' argItem with
  | [name, value] => processArg argument fieldName (goToLower name) value
  | _ => .error (.malformedTagItem index fieldName)

/-- The tag-item loop of `ParseArgFromField` (lines 29–40), with the loop
index made explicit. -/
def processItems (fieldName : GoStr) (argument : Argument) (index : Nat) :
    List GoStr → Except ParseError Argument
  | [] => .ok argument
  | argItem :: rest =>
    match processItem fieldName argument index argItem with
    | .error e => .error e
    | .ok argument2 => processItems fieldName argument2 (index + 1) rest

/-- `ParseArgFromField`: name-length check, derived long name, then the
tag-item loop over the `arg` tag split on `,`. -/
def ParseArgFromField (field : StructField) : Except ParseError Argument :=
  if field.Name.length < 2 then .error (.fieldNameTooShort field.Name)
  else
    let defaultName := goToLower (field.Name.take 1) ++ field.Name.drop 1
    processItems field.Name { LongName := defaultName } 0
      (splitChar ',' field.argTag)

/-- A non-nil Go interface value produced by the converters. -/
inductive GoValue where
  | boolV (b : Bool)
  | intV (n : Int)
deriving Repr, DecidableEq

/-- The panic sites of the attach helpers: `attachCommonArg`'s panic on a
default value the converter rejects, and the runtime panic of the type
assertions `defaultValue.(bool)` / `defaultValue.(int)` on a value that is
nil (or of the wrong dynamic type). -/
inductive PanicKind where
  | defaultConversionFailure
  | nilTypeAssertion
deriving Repr, DecidableEq

/-- `booleanStringToValueConverter`: `strconv.ParseBool` boxed. -/
def booleanStringToValueConverter (val : GoStr) : Option GoValue :=
  (ParseBool val).map .boolV

/-- `intStringToValueConverter`: `strconv.Atoi` boxed. -/
def intStringToValueConverter (val : GoStr) : Option GoValue :=
  (Atoi val).map .intV

/-- `attachCommonArg`: `.ok none` models returning nil when the argument
has no default value; `.error` models the panic on a conversion failure. -/
def attachCommonArg (arg : Argument) (converter : GoStr → Option GoValue) :
    Except PanicKind (Option GoValue) :=
  if arg.HasDefaultValue then
    match converter arg.DefaultValue with
    | none => .error .defaultConversionFailure
    | some v => .ok (some v)
  else .ok none

/-- The type assertion `defaultValue.(bool)` of `AttachBoolArg`. -/
def goTypeAssertBool : Option GoValue → Except PanicKind Bool
  | some (.boolV b) => .ok b
  | _ => .error .nilTypeAssertion

/-- The type assertion `defaultValue.(int)` of `AttachIntArg`. -/
def goTypeAssertInt : Option GoValue → Except PanicKind Int
  | some (.intV n) => .ok n
  | _ => .error .nilTypeAssertion

/-- The default-value computation of `AttachBoolArg` (lines 128–129): the
flag-registration call on the cobra command is an external side effect and
is not modelled. -/
def AttachBoolArgDefault (arg : Argument) : Except PanicKind Bool :=
  (attachCommonArg arg booleanStringToValueConverter).bind goTypeAssertBool

/-- The default-value computation of `AttachIntArg` (lines 136–137). -/
def AttachIntArgDefault (arg : Argument) : Except PanicKind Int :=
  (attachCommonArg arg intStringToValueConverter).bind goTypeAssertInt

/-- The effective default computed by `AttachStringArg` (lines 92–98):
the tag-derived default when present, overridden by the first element of
the variadic tail when one is supplied. -/
def AttachStringArgDefault (arg : Argument) (otherArgs : List GoStr) : GoStr :=
  let d := if arg.HasDefaultValue then arg.DefaultValue else []
  match otherArgs with
  | o :: _ => o
  | [] => d

/-- The key/value pair a tag item contributes: its part before the `=`
lower-cased, and the part after, when the item is well-formed. -/
def itemKeyValue (item : GoStr) : Option (GoStr × GoStr) :=
  match splitChar '=' item with
  | [k, v] => some (goToLower k, v)
  | _ => none

/-- The (lower-cased) key of a well-formed tag item. -/
def itemKey (item : GoStr) : Option GoStr :=
  (itemKeyValue item).map Prod.fst

/-- A tag item that processes without error from any argument state:
well-formed, and its value is admissible for its key (`required` needs a
boolean literal, `shortname` needs at most one character). -/
def itemOk (item : GoStr) : Bool :=
  match splitChar '=' item with
  | [k, v] =>
    if goToLower k = "required".data then (ParseBool v).isSome
    else if goToLower k = "shortname".data then decide (v.length ≤ 1)
    else true
  | _ => false

/-- A tag item that overrides the long name: well-formed, key `longname`
(case-insensitively), non-empty value. -/
def isLongNameOverride (item : GoStr) : Bool :=
  match splitChar '=' item with
  | [k, v] => decide (goToLower k = "longname".data) && !v.isEmpty
  | _ => false

theorem chr_toNat_ofNat (m : Nat) (h : m.isValidChar) :
    (Char.ofNat m).toNat = m := by
  unfold Char.ofNat
  rw [dif_pos h]
  unfold Char.ofNatAux Char.toNat
  simp [UInt32.toNat, BitVec.toNat_ofNatLt]

theorem char_toLower_toLower (c : Char) : c.toLower.toLower = c.toLower := by
  unfold Char.toLower
  by_cases h : c.toNat ≥ 65 ∧ c.toNat ≤ 90
  · rw [if_pos h]
    have hv : (c.toNat + 32).isValidChar := Or.inl (by omega)
    simp only [chr_toNat_ofNat _ hv]
    rw [if_neg (by omega)]
  · simp only [if_neg h]

theorem goToLower_goToLower (s : GoStr) : goToLower (goToLower s) = goToLower s := by
  unfold goToLower
  rw [List.map_map]
  exact List.map_congr_left fun c _ => char_toLower_toLower c

theorem goToLower_length (s : GoStr) : (goToLower s).length = s.length :=
  List.length_map s Char.toLower

theorem processItems_nil (fn : GoStr) (a : Argument) (idx : Nat) :
    processItems fn a idx [] = .ok a := rfl

theorem processItems_cons (fn : GoStr) (a : Argument) (idx : Nat)
    (x : GoStr) (rest : List GoStr) :
    processItems fn a idx (x :: rest) =
      match processItem fn a idx x with
      | .error e => .error e
      | .ok a2 => processItems fn a2 (idx + 1) rest := rfl

/-- Full case analysis of a successful `processArg` call. -/
theorem processArg_ok_cases {a : Argument} {fn k v : GoStr} {a' : Argument}
    (h : processArg a fn k v = .ok a') :
    (k = "required".data ∧ ∃ b, ParseBool v = some b ∧ a' = { a with Required := b }) ∨
    (k = "longname".data ∧ a' = processArgLongName a v) ∨
    (k = "defaultvalue".data ∧ a' = { a with DefaultValue := v, HasDefaultValue := true }) ∨
    (k = "shortname".data ∧ v.length ≤ 1 ∧ a' = { a with ShortName := goToLower v }) ∨
    (k ≠ "required".data ∧ k ≠ "longname".data ∧ k ≠ "defaultvalue".data ∧
      k ≠ "shortname".data ∧ a' = a) := by
  unfold processArg at h
  split_ifs at h with h1 h2 h3 h4
  · unfold processArgRequired at h
    cases hb : ParseBool v with
    | none => rw [hb] at h; exact absurd h (by simp)
    | some b =>
      rw [hb] at h
      exact Or.inl ⟨h1, b, rfl, (Except.ok.injEq _ _ ▸ h).symm⟩
  · exact Or.inr (Or.inl ⟨h2, ((Except.ok.injEq _ _) ▸ h).symm⟩)
  · exact Or.inr (Or.inr (Or.inl ⟨h3, by
      unfold processArgDefaultValue at h
      exact ((Except.ok.injEq _ _) ▸ h).symm⟩))
  · unfold processArgShortName at h
    split_ifs at h with h5
    exact Or.inr (Or.inr (Or.inr (Or.inl ⟨h4, by omega,
      ((Except.ok.injEq _ _) ▸ h).symm⟩)))
  · exact Or.inr (Or.inr (Or.inr (Or.inr ⟨h1, h2, h3, h4,
      ((Except.ok.injEq _ _) ▸ h).symm⟩)))

/-- A successful loop iteration comes from a well-formed item and a
successful dispatch. -/
theorem processItem_ok {fn : GoStr} {a : Argument} {idx : Nat} {x : GoStr}
    {a' : Argument} (h : processItem fn a idx x = .ok a') :
    ∃ k v, splitChar '=' x = [k, v] ∧ processArg a fn (goToLower k) v = .ok a' := by
  unfold processItem at h
  split at h
  · next k v heq => exact ⟨k, v, heq, h⟩
  · exact absurd h (by simp)

/-- Invariant preservation through the tag-item loop. -/
theorem processItems_inv (P : Argument → Prop)
    (hstep : ∀ a fn k v a', P a → processArg a fn k v = .ok a' → P a') :
    ∀ (items : List GoStr) (fn : GoStr) (a : Argument) (idx : Nat) (arg : Argument),
      P a → processItems fn a idx items = .ok arg → P arg := by
  intro items
  induction items with
  | nil => intro fn a idx arg hP h; rw [processItems_nil] at h; cases h; exact hP
  | cons x rest ih =>
    intro fn a idx arg hP h
    rw [processItems_cons] at h
    cases hx : processItem fn a idx x with
    | error e => rw [hx] at h; exact absurd h (by simp)
    | ok a2 =>
      rw [hx] at h
      obtain ⟨k, v, _, hpa⟩ := processItem_ok hx
      exact ih fn a2 (idx + 1) arg (hstep a fn (goToLower k) v a2 hP hpa) h

/-- A component untouched by every item of the list is untouched by the
whole loop. -/
theorem processItems_frame {β : Type} (f : Argument → β) (keep : GoStr → Prop)
    (hstep : ∀ fn a idx x a', keep x → processItem fn a idx x = .ok a' → f a' = f a) :
    ∀ (items : List GoStr) (fn : GoStr) (a : Argument) (idx : Nat) (arg : Argument),
      (∀ x ∈ items, keep x) → processItems fn a idx items = .ok arg → f arg = f a := by
  intro items
  induction items with
  | nil => intro fn a idx arg _ h; rw [processItems_nil] at h; cases h; rfl
  | cons x rest ih =>
    intro fn a idx arg hkeep h
    rw [processItems_cons] at h
    cases hx : processItem fn a idx x with
    | error e => rw [hx] at h; exact absurd h (by simp)
    | ok a2 =>
      rw [hx] at h
      have h2 := ih fn a2 (idx + 1) arg (fun y hy => hkeep y (List.mem_cons_of_mem x hy)) h
      rw [h2, hstep fn a idx x a2 (hkeep x (List.mem_cons_self x rest)) hx]

/-- A successful loop over an appended list decomposes at the seam. -/
theorem processItems_append {fn : GoStr} {a : Argument} {idx : Nat}
    {xs ys : List GoStr} {arg : Argument}
    (h : processItems fn a idx (xs ++ ys) = .ok arg) :
    ∃ a1, processItems fn a idx xs = .ok a1 ∧
      processItems fn a1 (idx + xs.length) ys = .ok arg := by
  induction xs generalizing a idx with
  | nil => exact ⟨a, rfl, by simpa using h⟩
  | cons x xs ih =>
    rw [List.cons_append, processItems_cons] at h
    cases hx : processItem fn a idx x with
    | error e => rw [hx] at h; exact absurd h (by simp)
    | ok a2 =>
      rw [hx] at h
      obtain ⟨a1, h1, h2⟩ := ih h
      refine ⟨a1, ?_, ?_⟩
      · rw [processItems_cons, hx]; exact h1
      · have : idx + 1 + xs.length = idx + (x :: xs).length := by
          simp [List.length_cons]; omega
        rw [← this]; exact h2

/-- An admissible item dispatches successfully from any argument state. -/
theorem processItem_ok_of_itemOk {x : GoStr} (hx : itemOk x = true)
    (fn : GoStr) (a : Argument) (idx : Nat) :
    ∃ a', processItem fn a idx x = .ok a' := by
  unfold itemOk at hx
  split at hx
  · next k v heq =>
    unfold processItem
    rw [heq]
    show ∃ a', processArg a fn (goToLower k) v = .ok a'
    unfold processArg
    split_ifs with h1 h2 h3 h4
    · rw [if_pos h1] at hx
      cases hb : ParseBool v with
      | none => rw [hb] at hx; simp at hx
      | some b =>
        exact ⟨{ a with Required := b }, by unfold processArgRequired; rw [hb]⟩
    · exact ⟨_, rfl⟩
    · exact ⟨_, rfl⟩
    · rw [if_neg h1, if_pos h4] at hx
      have hlen : v.length ≤ 1 := of_decide_eq_true hx
      exact ⟨{ a with ShortName := goToLower v }, by
        unfold processArgShortName; rw [if_neg (by omega)]⟩
    · exact ⟨a, rfl⟩
  · simp at hx

/-- When every item before the first ill-formed one is admissible, the
loop stops exactly there, reporting its index. -/
theorem processItems_first_malformed :
    ∀ (pre : List GoStr) (bad : GoStr) (post : List GoStr) (fn : GoStr)
      (a : Argument) (idx : Nat),
      (splitChar '=' bad).length ≠ 2 →
      (∀ x ∈ pre, itemOk x = true) →
      processItems fn a idx (pre ++ bad :: post) =
        .error (.malformedTagItem (idx + pre.length) fn) := by
  intro pre
  induction pre with
  | nil =>
    intro bad post fn a idx hbad _
    rw [List.nil_append, processItems_cons]
    have hb : processItem fn a idx bad = .error (.malformedTagItem idx fn) := by
      unfold processItem
      split
      · next k v heq => rw [heq] at hbad; simp at hbad
      · rfl
    rw [hb]
    simp
  | cons x pre ih =>
    intro bad post fn a idx hbad hok
    rw [List.cons_append, processItems_cons]
    obtain ⟨a2, hx⟩ := processItem_ok_of_itemOk (hok x (List.mem_cons_self x _)) fn a idx
    rw [hx]
    have hrec := ih bad post fn a2 (idx + 1) hbad
      (fun y hy => hok y (List.mem_cons_of_mem x hy))
    have harith : idx + (x :: pre).length = idx + 1 + pre.length := by
      simp [List.length_cons]; omega
    rw [harith]
    exact hrec

/-- Unfolding a successful `ParseArgFromField` call. -/
theorem ParseArgFromField_ok {field : StructField} {arg : Argument}
    (h : ParseArgFromField field = .ok arg) :
    2 ≤ field.Name.length ∧
    processItems field.Name
      { LongName := goToLower (field.Name.take 1) ++ field.Name.drop 1 } 0
      (splitChar ',' field.argTag) = .ok arg := by
  unfold ParseArgFromField at h
  split_ifs at h with h1
  exact ⟨by omega, h⟩

/-- Unfolding `ParseArgFromField` on a long-enough field name. -/
theorem ParseArgFromField_eq {field : StructField} (h : 2 ≤ field.Name.length) :
    ParseArgFromField field =
      processItems field.Name
        { LongName := goToLower (field.Name.take 1) ++ field.Name.drop 1 } 0
        (splitChar ',' field.argTag) := by
  unfold ParseArgFromField
  rw [if_neg (by omega)]

/-- The derived long name of a long-enough field name is non-empty. -/
theorem derivedName_ne_nil {name : GoStr} (h : 2 ≤ name.length) :
    goToLower (name.take 1) ++ name.drop 1 ≠ [] := by
  have hlen : (goToLower (name.take 1) ++ name.drop 1).length =
      min 1 name.length + (name.length - 1) := by
    rw [List.length_append, goToLower_length, List.length_take, List.length_drop]
  intro hnil
  rw [hnil] at hlen
  simp at hlen
  omega

/-- The only errors `processArg` produces. -/
theorem processArg_error_kinds {a : Argument} {fn k v : GoStr} {e : ParseError}
    (h : processArg a fn k v = .error e) :
    (∃ f t tv, e = .invalidBooleanValue f t tv) ∨
    (∃ f t tv, e = .shortNameTooLong f t tv) := by
  unfold processArg at h
  split_ifs at h with h1 h2 h3 h4
  · unfold processArgRequired at h
    cases hb : ParseBool v with
    | none => rw [hb] at h; injection h with h'; exact Or.inl ⟨_, _, _, h'.symm⟩
    | some b => rw [hb] at h; exact absurd h (by simp)
  · unfold processArgShortName at h
    split_ifs at h with h5
    · injection h with h'; exact Or.inr ⟨_, _, _, h'.symm⟩

/-- The only errors one loop iteration produces. -/
theorem processItem_error_kinds {fn : GoStr} {a : Argument} {idx : Nat}
    {x : GoStr} {e : ParseError} (h : processItem fn a idx x = .error e) :
    e = .malformedTagItem idx fn ∨
    (∃ f t tv, e = .invalidBooleanValue f t tv) ∨
    (∃ f t tv, e = .shortNameTooLong f t tv) := by
  unfold processItem at h
  split at h
  · exact Or.inr (processArg_error_kinds h)
  · injection h with h'; exact Or.inl h'.symm

/-- The tag-item loop never produces the field-name-length error. -/
theorem processItems_error_kinds :
    ∀ (items : List GoStr) (fn : GoStr) (a : Argument) (idx : Nat) (e : ParseError),
      processItems fn a idx items = .error e →
      (∃ i f, e = .malformedTagItem i f) ∨
      (∃ f t tv, e = .invalidBooleanValue f t tv) ∨
      (∃ f t tv, e = .shortNameTooLong f t tv) := by
  intro items
  induction items with
  | nil => intro fn a idx e h; rw [processItems_nil] at h; exact absurd h (by simp)
  | cons x rest ih =>
    intro fn a idx e h
    rw [processItems_cons] at h
    cases hx : processItem fn a idx x with
    | error e0 =>
      rw [hx] at h
      injection h with h'
      rcases processItem_error_kinds hx with h1 | h1 | h1
      · exact Or.inl ⟨idx, fn, h' ▸ h1⟩
      · exact Or.inr (Or.inl (h' ▸ h1))
      · exact Or.inr (Or.inr (h' ▸ h1))
    | ok a2 =>
      rw [hx] at h
      exact ih fn a2 (idx + 1) e h

/-- Other keys leave `Required` unchanged. -/
theorem processArg_required_frame {a : Argument} {fn k v : GoStr} {a' : Argument}
    (h : processArg a fn k v = .ok a') (hk : k ≠ "required".data) :
    a'.Required = a.Required := by
  rcases processArg_ok_cases h with ⟨h1, _⟩ | ⟨_, ha⟩ | ⟨_, ha⟩ | ⟨_, _, ha⟩ | ⟨_, _, _, _, ha⟩
  · exact absurd h1 hk
  · unfold processArgLongName at ha; split_ifs at ha <;> rw [ha]
  · rw [ha]
  · rw [ha]
  · rw [ha]

/-- Other keys leave `ShortName` unchanged. -/
theorem processArg_shortName_frame {a : Argument} {fn k v : GoStr} {a' : Argument}
    (h : processArg a fn k v = .ok a') (hk : k ≠ "shortname".data) :
    a'.ShortName = a.ShortName := by
  rcases processArg_ok_cases h with ⟨_, _, _, ha⟩ | ⟨_, ha⟩ | ⟨_, ha⟩ | ⟨h1, _, _⟩ | ⟨_, _, _, _, ha⟩
  · rw [ha]
  · unfold processArgLongName at ha; split_ifs at ha <;> rw [ha]
  · rw [ha]
  · exact absurd h1 hk
  · rw [ha]

/-- Other keys leave `DefaultValue` and `HasDefaultValue` unchanged. -/
theorem processArg_default_frame {a : Argument} {fn k v : GoStr} {a' : Argument}
    (h : processArg a fn k v = .ok a') (hk : k ≠ "defaultvalue".data) :
    a'.DefaultValue = a.DefaultValue ∧ a'.HasDefaultValue = a.HasDefaultValue := by
  rcases processArg_ok_cases h with ⟨_, _, _, ha⟩ | ⟨_, ha⟩ | ⟨h1, _⟩ | ⟨_, _, ha⟩ | ⟨_, _, _, _, ha⟩
  · rw [ha]; exact ⟨rfl, rfl⟩
  · unfold processArgLongName at ha; split_ifs at ha <;> rw [ha] <;> exact ⟨rfl, rfl⟩
  · exact absurd h1 hk
  · rw [ha]; exact ⟨rfl, rfl⟩
  · rw [ha]; exact ⟨rfl, rfl⟩

/-- A `longname` item with empty value, or any other key, leaves
`LongName` unchanged. -/
theorem processArg_longName_frame {a : Argument} {fn k v : GoStr} {a' : Argument}
    (h : processArg a fn k v = .ok a') (hk : k = "longname".data → v = []) :
    a'.LongName = a.LongName := by
  rcases processArg_ok_cases h with ⟨_, _, _, ha⟩ | ⟨h1, ha⟩ | ⟨_, ha⟩ | ⟨_, _, ha⟩ | ⟨_, _, _, _, ha⟩
  · rw [ha]
  · rw [hk h1] at ha
    unfold processArgLongName at ha
    rw [if_neg (by simp)] at ha
    rw [ha]
  · rw [ha]
  · rw [ha]
  · rw [ha]

/-- Destructing a well-formed item's key/value pair. -/
theorem itemKeyValue_some {item k v : GoStr} (h : itemKeyValue item = some (k, v)) :
    ∃ k0, splitChar '=' item = [k0, v] ∧ goToLower k0 = k := by
  unfold itemKeyValue at h
  split at h
  · next k0 v0 heq =>
    injection h with h'
    injection h' with hk hv
    exact ⟨k0, hv ▸ heq, hk⟩
  · exact absurd h (by simp)

/-- The key of a well-formed item. -/
theorem itemKey_of_split {item k0 v0 : GoStr} (heq : splitChar '=' item = [k0, v0]) :
    itemKey item = some (goToLower k0) := by
  unfold itemKey itemKeyValue
  rw [heq]
  rfl

/-- Dispatch on the `required` key. -/
theorem processArg_required_key (a : Argument) (fn v : GoStr) :
    processArg a fn "required".data v = processArgRequired a fn "required".data v := by
  unfold processArg
  rw [if_pos rfl]

/-- Dispatch on the `longname` key. -/
theorem processArg_longname_key (a : Argument) (fn v : GoStr) :
    processArg a fn "longname".data v = .ok (processArgLongName a v) := by
  unfold processArg
  rw [if_neg (by decide), if_pos rfl]

/-- Dispatch on the `defaultvalue` key. -/
theorem processArg_defaultvalue_key (a : Argument) (fn v : GoStr) :
    processArg a fn "defaultvalue".data v = .ok (processArgDefaultValue a v) := by
  unfold processArg
  rw [if_neg (by decide), if_neg (by decide), if_pos rfl]

/-- Dispatch on the `shortname` key. -/
theorem processArg_shortname_key (a : Argument) (fn v : GoStr) :
    processArg a fn "shortname".data v = processArgShortName a fn "shortname".data v := by
  unfold processArg
  rw [if_neg (by decide), if_neg (by decide), if_neg (by decide), if_pos rfl]

/-- The loop on an appended list runs the two halves in sequence. -/
theorem processItems_append_eq (fn : GoStr) (a : Argument) (idx : Nat)
    (xs ys : List GoStr) :
    processItems fn a idx (xs ++ ys) =
      match processItems fn a idx xs with
      | .error e => .error e
      | .ok a1 => processItems fn a1 (idx + xs.length) ys := by
  induction xs generalizing a idx with
  | nil => simp [processItems_nil]
  | cons x xs ih =>
    rw [List.cons_append, processItems_cons, processItems_cons]
    cases hx : processItem fn a idx x with
    | error e => rfl
    | ok a2 =>
      show processItems fn a2 (idx + 1) (xs ++ ys) = _
      rw [ih a2 (idx + 1)]
      have harith : idx + 1 + xs.length = idx + (x :: xs).length := by
        simp [List.length_cons]; omega
      rw [harith]

/-- C5: a field name shorter than two characters makes `ParseArgFromField`
fail with the field-name-too-short error naming the field, and a field
name of length at least two never produces that error. -/
theorem short_field_name_fails (field : StructField) :
    (field.Name.length < 2 →
      ParseArgFromField field = .error (.fieldNameTooShort field.Name)) ∧
    (2 ≤ field.Name.length →
      ∀ s, ParseArgFromField field ≠ .error (.fieldNameTooShort s)) := by
  constructor
  · intro h
    unfold ParseArgFromField
    rw [if_pos h]
  · intro h s hcontra
    rw [ParseArgFromField_eq h] at hcontra
    rcases processItems_error_kinds _ _ _ _ _ hcontra with ⟨i, f, he⟩ | ⟨f, t, tv, he⟩ | ⟨f, t, tv, he⟩ <;>
      simp at he

theorem short_field_name_fails_witness :
    ParseArgFromField { Name := "X".data, argTag := [] } =
      .error (.fieldNameTooShort "X".data) ∧
    ParseArgFromField { Name := "Ab".data, argTag := [] } ≠
      .error (.fieldNameTooShort "Ab".data) :=
  ⟨(short_field_name_fails _).1 (by decide),
   (short_field_name_fails _).2 (by decide) _⟩

/-- C10: every successfully parsed argument has a non-empty long name:
the derived field name is the fallback and an empty `longname=` value
never overrides it. -/
theorem longName_nonempty (field : StructField) (arg : Argument)
    (h : ParseArgFromField field = .ok arg) : arg.LongName ≠ [] := by
  obtain ⟨hlen, hloop⟩ := ParseArgFromField_ok h
  exact processItems_inv (fun a => a.LongName ≠ [])
    (fun a fn k v a' hP hok => by
      rcases processArg_ok_cases hok with ⟨_, b, _, ha⟩ | ⟨_, ha⟩ | ⟨_, ha⟩ | ⟨_, _, ha⟩ | ⟨_, _, _, _, ha⟩
      · rw [ha]; exact hP
      · rw [ha]
        unfold processArgLongName
        split_ifs with hv
        · show v ≠ []
          intro hnil
          rw [hnil] at hv
          simp at hv
        · exact hP
      · rw [ha]; exact hP
      · rw [ha]; exact hP
      · rw [ha]; exact hP)
    _ _ _ _ _ (derivedName_ne_nil hlen) hloop

theorem longName_nonempty_witness :
    ({ Required := true, LongName := "userName".data, ShortName := "u".data } : Argument).LongName ≠ [] :=
  longName_nonempty { Name := "UserName".data, argTag := "required=true,shortname=u".data } _
    (by decide)

/-- C4 counterexample: a field with a one-character name and an empty
`arg` tag fails with the field-name-too-short error, not with the
malformed-item error at index 0 that the claim predicts for every field
with an empty tag. -/
theorem empty_tag_short_name_counterexample :
    ParseArgFromField { Name := "X".data, argTag := [] } =
      .error (.fieldNameTooShort "X".data) ∧
    ParseArgFromField { Name := "X".data, argTag := [] } ≠
      .error (.malformedTagItem 0 "X".data) := by decide

/-- C4 (amended): for every field whose name has length at least 2 and
whose `arg` tag is the empty string (including a field carrying no `arg`
tag at all), `ParseArgFromField` fails with the malformed-item error at
index 0; and no field with an empty tag parses successfully, whatever its
name. -/
theorem empty_tag_fails_malformed_at_zero (field : StructField) :
    (2 ≤ field.Name.length → field.argTag = [] →
      ParseArgFromField field = .error (.malformedTagItem 0 field.Name)) ∧
    (field.argTag = [] → ∀ arg, ParseArgFromField field ≠ .ok arg) := by
  have h1 : 2 ≤ field.Name.length → field.argTag = [] →
      ParseArgFromField field = .error (.malformedTagItem 0 field.Name) := by
    intro hlen htag
    rw [ParseArgFromField_eq hlen, htag]
    have hsplit : splitChar ',' ([] : GoStr) = [[]] := rfl
    rw [hsplit, processItems_cons]
    have hitem : processItem field.Name
        { LongName := goToLower (field.Name.take 1) ++ field.Name.drop 1 } 0 [] =
        .error (.malformedTagItem 0 field.Name) := rfl
    rw [hitem]
  refine ⟨h1, fun htag arg hcontra => ?_⟩
  by_cases hlen : field.Name.length < 2
  · unfold ParseArgFromField at hcontra
    rw [if_pos hlen] at hcontra
    exact absurd hcontra (by simp)
  · rw [h1 (by omega) htag] at hcontra
    exact absurd hcontra (by simp)

theorem empty_tag_fails_malformed_at_zero_witness :
    ParseArgFromField { Name := "Port".data, argTag := [] } =
      .error (.malformedTagItem 0 "Port".data) :=
  (empty_tag_fails_malformed_at_zero _).1 (by decide) rfl

/-- C2 counterexample: in the tag `required=zzz,bad` of field `Ab`, the
first item that does not split into exactly two parts is at index 1, yet
parsing fails with the invalid-boolean error produced at index 0, not with
the malformed-item error naming index 1. -/
theorem malformedTagItem_not_always_reported :
    (splitChar '=' "required=zzz".data).length = 2 ∧
    (splitChar '=' "bad".data).length ≠ 2 ∧
    splitChar ',' "required=zzz,bad".data = ["required=zzz".data, "bad".data] ∧
    ParseArgFromField { Name := "Ab".data, argTag := "required=zzz,bad".data } =
      .error (.invalidBooleanValue "Ab".data "required".data "zzz".data) ∧
    ParseArgFromField { Name := "Ab".data, argTag := "required=zzz,bad".data } ≠
      .error (.malformedTagItem 1 "Ab".data) := by decide

/-- C2 (amended): when the field name has length at least 2 and every tag
item before position `i` processes without error, and the item at `i` is
the first that does not split into exactly two parts on `=`, parsing fails
with the malformed-item error naming index `i` and the field name (so no
later item can influence the result). -/
theorem malformedTagItem_at_first_bad_item (field : StructField)
    (pre : List GoStr) (bad : GoStr) (post : List GoStr)
    (hname : 2 ≤ field.Name.length)
    (hsplit : splitChar ',' field.argTag = pre ++ bad :: post)
    (hbad : (splitChar '=' bad).length ≠ 2)
    (hpre : ∀ x ∈ pre, itemOk x = true) :
    ParseArgFromField field = .error (.malformedTagItem pre.length field.Name) := by
  rw [ParseArgFromField_eq hname, hsplit]
  have hfm := processItems_first_malformed pre bad post field.Name
    { LongName := goToLower (field.Name.take 1) ++ field.Name.drop 1 } 0 hbad hpre
  simpa using hfm

theorem malformedTagItem_at_first_bad_item_witness :
    ParseArgFromField { Name := "Ab".data, argTag := "required=true,bad,shortname=u".data } =
      .error (.malformedTagItem 1 "Ab".data) :=
  malformedTagItem_at_first_bad_item _ ["required=true".data] "bad".data
    ["shortname=u".data] (by decide) (by decide) (by decide) (by decide)

/-- A well-formed item's key/value pair, from its split. -/
theorem itemKeyValue_of_split {item k0 v0 : GoStr}
    (heq : splitChar '=' item = [k0, v0]) :
    itemKeyValue item = some (goToLower k0, v0) := by
  unfold itemKeyValue
  rw [heq]

/-- A run of admissible items always completes. -/
theorem processItems_reach :
    ∀ (pre : List GoStr) (fn : GoStr) (a : Argument) (idx : Nat),
      (∀ x ∈ pre, itemOk x = true) →
      ∃ a1, processItems fn a idx pre = .ok a1 := by
  intro pre
  induction pre with
  | nil => intro fn a idx _; exact ⟨a, rfl⟩
  | cons x rest ih =>
    intro fn a idx hok
    obtain ⟨a2, hx⟩ := processItem_ok_of_itemOk (hok x (List.mem_cons_self x _)) fn a idx
    obtain ⟨a1, h1⟩ := ih fn a2 (idx + 1) (fun y hy => hok y (List.mem_cons_of_mem x hy))
    refine ⟨a1, ?_⟩
    rw [processItems_cons, hx]
    exact h1

/-- `HasDefaultValue` after the loop: set exactly when the start state had
it or some item carries the `defaultvalue` key. -/
theorem processItems_hasDefault :
    ∀ (items : List GoStr) (fn : GoStr) (a : Argument) (idx : Nat) (arg : Argument),
      processItems fn a idx items = .ok arg →
      (arg.HasDefaultValue = true ↔ a.HasDefaultValue = true ∨
        ∃ x ∈ items, itemKey x = some "defaultvalue".data) := by
  intro items
  induction items with
  | nil =>
    intro fn a idx arg h
    rw [processItems_nil] at h
    cases h
    simp
  | cons x rest ih =>
    intro fn a idx arg h
    rw [processItems_cons] at h
    cases hx : processItem fn a idx x with
    | error e => rw [hx] at h; exact absurd h (by simp)
    | ok a2 =>
      rw [hx] at h
      obtain ⟨k, v, heq, hpa⟩ := processItem_ok hx
      have hstep : a2.HasDefaultValue = true ↔
          (a.HasDefaultValue = true ∨ itemKey x = some "defaultvalue".data) := by
        by_cases hk : goToLower k = "defaultvalue".data
        · rw [hk, processArg_defaultvalue_key] at hpa
          injection hpa with h2
          constructor
          · intro _
            right
            rw [itemKey_of_split heq, hk]
          · intro _
            rw [← h2]
            rfl
        · have hfr := processArg_default_frame hpa hk
          rw [hfr.2]
          have hne : itemKey x ≠ some "defaultvalue".data := by
            rw [itemKey_of_split heq]
            intro hc
            injection hc with hc'
            exact hk hc'
          simp [hne]
      have hrest := ih fn a2 (idx + 1) arg h
      have hcons : (∃ y ∈ x :: rest, itemKey y = some "defaultvalue".data) ↔
          (itemKey x = some "defaultvalue".data ∨
            ∃ y ∈ rest, itemKey y = some "defaultvalue".data) := by
        simp [List.mem_cons, or_and_right, exists_or]
      rw [hrest, hstep, hcons]
      tauto

/-- C1: for every struct field whose name has length at least 2, a
successful `ParseArgFromField` returns an argument whose long name is the
field name with its first character lower-cased and the remainder
unchanged, unless some `longname=` item with a non-empty value is present
in the tag. -/
theorem longName_default_unless_override (field : StructField) (arg : Argument)
    (hname : 2 ≤ field.Name.length)
    (h : ParseArgFromField field = .ok arg)
    (hno : ∀ item ∈ splitChar ',' field.argTag, isLongNameOverride item = false) :
    arg.LongName = goToLower (field.Name.take 1) ++ field.Name.drop 1 := by
  obtain ⟨_, hloop⟩ := ParseArgFromField_ok h
  exact processItems_frame Argument.LongName
    (fun x => isLongNameOverride x = false)
    (fun fn a idx x a' hkeep hok => by
      obtain ⟨k, v, heq, hpa⟩ := processItem_ok hok
      apply processArg_longName_frame hpa
      intro hk
      have hkeep2 : isLongNameOverride x = false := hkeep
      unfold isLongNameOverride at hkeep2
      rw [heq] at hkeep2
      simp [hk] at hkeep2
      exact hkeep2)
    _ _ _ _ _ hno hloop

theorem longName_default_unless_override_witness :
    ({ Required := true, LongName := "userName".data, ShortName := "u".data } : Argument).LongName =
      goToLower (("UserName".data : GoStr).take 1) ++ ("UserName".data : GoStr).drop 1 :=
  longName_default_unless_override
    { Name := "UserName".data, argTag := "required=true,shortname=u".data } _
    (by decide) (by decide) (by decide)

/-- C6 counterexample: the tag `bad,shortname=abc` of field `Ab` contains
a shortname item whose value has length 3, yet parsing fails with the
malformed-item error at index 0, not with the short-name-too-long error
the claim predicts. -/
theorem shortname_too_long_not_always_reported :
    1 < ("abc".data : GoStr).length ∧
    splitChar ',' "bad,shortname=abc".data = ["bad".data, "shortname=abc".data] ∧
    itemKeyValue "shortname=abc".data = some ("shortname".data, "abc".data) ∧
    ParseArgFromField { Name := "Ab".data, argTag := "bad,shortname=abc".data } =
      .error (.malformedTagItem 0 "Ab".data) ∧
    ParseArgFromField { Name := "Ab".data, argTag := "bad,shortname=abc".data } ≠
      .error (.shortNameTooLong "Ab".data "shortname".data "abc".data) := by decide

/-- C6 (amended): a `shortname` item whose value is longer than one
character fails its processing step with the short-name-too-long error,
and makes the whole parse fail with that error provided every earlier item
processes without error; a value of at most one character is stored
lower-cased; and in every successfully parsed argument the short name has
at most one character and is lower-cased. -/
theorem shortName_at_most_one_char_lowercased :
    (∀ (a : Argument) (fn k v : GoStr), 1 < v.length →
      processArgShortName a fn k v = .error (.shortNameTooLong fn k v)) ∧
    (∀ (a : Argument) (fn k v : GoStr), v.length ≤ 1 →
      processArgShortName a fn k v = .ok { a with ShortName := goToLower v }) ∧
    (∀ (field : StructField) (pre : List GoStr) (item : GoStr) (post : List GoStr)
      (v : GoStr),
      2 ≤ field.Name.length →
      splitChar ',' field.argTag = pre ++ item :: post →
      itemKeyValue item = some ("shortname".data, v) →
      1 < v.length →
      (∀ x ∈ pre, itemOk x = true) →
      ParseArgFromField field =
        .error (.shortNameTooLong field.Name "shortname".data v)) ∧
    (∀ (field : StructField) (arg : Argument), ParseArgFromField field = .ok arg →
      arg.ShortName.length ≤ 1 ∧ goToLower arg.ShortName = arg.ShortName) := by
  refine ⟨?_, ?_, ?_, ?_⟩
  · intro a fn k v hv
    unfold processArgShortName
    rw [if_pos (by omega)]
  · intro a fn k v hv
    unfold processArgShortName
    rw [if_neg (by omega)]
  · intro field pre item post v hname hsplit hkv hv hpre
    obtain ⟨k0, heq, hk0⟩ := itemKeyValue_some hkv
    rw [ParseArgFromField_eq hname, hsplit, processItems_append_eq]
    obtain ⟨a1, ha1⟩ := processItems_reach pre field.Name
      { LongName := goToLower (field.Name.take 1) ++ field.Name.drop 1 } 0 hpre
    rw [ha1]
    show processItems field.Name a1 (0 + pre.length) (item :: post) = _
    rw [processItems_cons]
    have hitem : processItem field.Name a1 (0 + pre.length) item =
        .error (.shortNameTooLong field.Name "shortname".data v) := by
      unfold processItem
      rw [heq]
      show processArg a1 field.Name (goToLower k0) v = _
      rw [hk0, processArg_shortname_key]
      unfold processArgShortName
      rw [if_pos (by omega)]
    rw [hitem]
  · intro field arg h
    obtain ⟨hlen, hloop⟩ := ParseArgFromField_ok h
    exact processItems_inv
      (fun a => a.ShortName.length ≤ 1 ∧ goToLower a.ShortName = a.ShortName)
      (fun a fn k v a' hP hok => by
        rcases processArg_ok_cases hok with ⟨_, b, _, ha⟩ | ⟨_, ha⟩ | ⟨_, ha⟩ | ⟨_, hv, ha⟩ | ⟨_, _, _, _, ha⟩
        · rw [ha]; exact hP
        · rw [ha]
          unfold processArgLongName
          split_ifs <;> exact hP
        · rw [ha]; exact hP
        · rw [ha]
          refine ⟨?_, ?_⟩
          · show (goToLower v).length ≤ 1
            rw [goToLower_length]
            exact hv
          · show goToLower (goToLower v) = goToLower v
            exact goToLower_goToLower v
        · rw [ha]; exact hP)
      _ _ _ _ _ ⟨by simp, rfl⟩ hloop

theorem shortName_at_most_one_char_lowercased_witness :
    processArgShortName {} "F".data "shortname".data "ab".data =
      .error (.shortNameTooLong "F".data "shortname".data "ab".data) ∧
    processArgShortName {} "F".data "shortname".data "A".data =
      .ok { ShortName := "a".data } ∧
    ParseArgFromField { Name := "Ab".data, argTag := "required=true,shortname=abc".data } =
      .error (.shortNameTooLong "Ab".data "shortname".data "abc".data) ∧
    (("u".data : GoStr).length ≤ 1 ∧ goToLower ("u".data : GoStr) = "u".data) :=
  ⟨shortName_at_most_one_char_lowercased.1 _ _ _ _ (by decide),
   shortName_at_most_one_char_lowercased.2.1 _ _ _ _ (by decide),
   shortName_at_most_one_char_lowercased.2.2.1 _ ["required=true".data]
     ("shortname=abc".data) [] "abc".data (by decide) (by decide) (by decide)
     (by decide) (by decide),
   shortName_at_most_one_char_lowercased.2.2.2
     { Name := "UserName".data, argTag := "required=true,shortname=u".data }
     { Required := true, LongName := "userName".data, ShortName := "u".data }
     (by decide)⟩

/-- C7: in every successfully parsed argument, `HasDefaultValue` is true
exactly when some tag item carries the (case-insensitive) key
`defaultvalue`, whatever its value; in particular `defaultvalue=` yields
`HasDefaultValue` true and an empty `DefaultValue`. -/
theorem hasDefaultValue_iff_default_item (field : StructField) (arg : Argument)
    (h : ParseArgFromField field = .ok arg) :
    (arg.HasDefaultValue = true ↔
      ∃ item ∈ splitChar ',' field.argTag,
        itemKey item = some "defaultvalue".data) ∧
    ParseArgFromField { Name := "Ab".data, argTag := "defaultvalue=".data } =
      .ok { LongName := "ab".data, HasDefaultValue := true, DefaultValue := [] } := by
  refine ⟨?_, by decide⟩
  obtain ⟨hlen, hloop⟩ := ParseArgFromField_ok h
  have hiff := processItems_hasDefault _ _ _ _ _ hloop
  simpa using hiff

theorem hasDefaultValue_iff_default_item_witness :
    (({ LongName := "port".data, HasDefaultValue := true,
        DefaultValue := "8080".data } : Argument).HasDefaultValue = true ↔
      ∃ item ∈ splitChar ',' "defaultvalue=8080".data,
        itemKey item = some "defaultvalue".data) :=
  (hasDefaultValue_iff_default_item
    { Name := "Port".data, argTag := "defaultvalue=8080".data } _ (by decide)).1

/-- Items without the `required` key leave `Required` unchanged. -/
theorem processItems_required_noitem {post : List GoStr} {fn : GoStr}
    {a : Argument} {idx : Nat} {arg : Argument}
    (hkeep : ∀ x ∈ post, itemKey x ≠ some "required".data)
    (h : processItems fn a idx post = .ok arg) : arg.Required = a.Required :=
  processItems_frame Argument.Required (fun x => itemKey x ≠ some "required".data)
    (fun fn a idx x a' hk hok => by
      obtain ⟨kk, vv, heq2, hpa2⟩ := processItem_ok hok
      apply processArg_required_frame hpa2
      intro hc
      exact hk (by rw [itemKey_of_split heq2, hc]))
    post fn a idx arg hkeep h

/-- Items without the `shortname` key leave `ShortName` unchanged. -/
theorem processItems_shortName_noitem {post : List GoStr} {fn : GoStr}
    {a : Argument} {idx : Nat} {arg : Argument}
    (hkeep : ∀ x ∈ post, itemKey x ≠ some "shortname".data)
    (h : processItems fn a idx post = .ok arg) : arg.ShortName = a.ShortName :=
  processItems_frame Argument.ShortName (fun x => itemKey x ≠ some "shortname".data)
    (fun fn a idx x a' hk hok => by
      obtain ⟨kk, vv, heq2, hpa2⟩ := processItem_ok hok
      apply processArg_shortName_frame hpa2
      intro hc
      exact hk (by rw [itemKey_of_split heq2, hc]))
    post fn a idx arg hkeep h

/-- Items without the `defaultvalue` key leave the default value and its
flag unchanged. -/
theorem processItems_default_noitem {post : List GoStr} {fn : GoStr}
    {a : Argument} {idx : Nat} {arg : Argument}
    (hkeep : ∀ x ∈ post, itemKey x ≠ some "defaultvalue".data)
    (h : processItems fn a idx post = .ok arg) :
    arg.DefaultValue = a.DefaultValue ∧ arg.HasDefaultValue = a.HasDefaultValue :=
  ⟨processItems_frame Argument.DefaultValue
    (fun x => itemKey x ≠ some "defaultvalue".data)
    (fun fn a idx x a' hk hok => by
      obtain ⟨kk, vv, heq2, hpa2⟩ := processItem_ok hok
      refine (processArg_default_frame hpa2 ?_).1
      intro hc
      exact hk (by rw [itemKey_of_split heq2, hc]))
    post fn a idx arg hkeep h,
   processItems_frame Argument.HasDefaultValue
    (fun x => itemKey x ≠ some "defaultvalue".data)
    (fun fn a idx x a' hk hok => by
      obtain ⟨kk, vv, heq2, hpa2⟩ := processItem_ok hok
      refine (processArg_default_frame hpa2 ?_).2
      intro hc
      exact hk (by rw [itemKey_of_split heq2, hc]))
    post fn a idx arg hkeep h⟩

/-- Items that do not override the long name leave it unchanged. -/
theorem processItems_longName_noitem {post : List GoStr} {fn : GoStr}
    {a : Argument} {idx : Nat} {arg : Argument}
    (hkeep : ∀ x ∈ post, isLongNameOverride x = false)
    (h : processItems fn a idx post = .ok arg) : arg.LongName = a.LongName :=
  processItems_frame Argument.LongName (fun x => isLongNameOverride x = false)
    (fun fn a idx x a' hk hok => by
      obtain ⟨kk, vv, heq2, hpa2⟩ := processItem_ok hok
      apply processArg_longName_frame hpa2
      intro hc
      have hk2 : isLongNameOverride x = false := hk
      unfold isLongNameOverride at hk2
      rw [heq2] at hk2
      simp [hc] at hk2
      exact hk2)
    post fn a idx arg hkeep h

/-- C8 counterexample: with tag `longname=foo,longname=`, the resulting
long name is `foo` although the last `longname` occurrence is `longname=`;
processing the last occurrence alone yields the derived name `ab` instead,
so the last occurrence of a key does not always determine the resulting
field. -/
theorem last_occurrence_not_always_determining :
    (ParseArgFromField { Name := "Ab".data, argTag := "longname=foo,longname=".data }).map
      Argument.LongName = .ok "foo".data ∧
    (ParseArgFromField { Name := "Ab".data, argTag := "longname=".data }).map
      Argument.LongName = .ok "ab".data := by decide

/-- C8 (amended): tag items are processed left to right; for the keys
`required`, `shortname` and `defaultvalue` the last occurrence determines
the resulting field, while for `longname` the last occurrence with a
non-empty value determines it (empty-valued `longname` items are
ignored). -/
theorem last_occurrence_wins (field : StructField) (arg : Argument)
    (pre : List GoStr) (item : GoStr) (post : List GoStr) (k v : GoStr)
    (hok : ParseArgFromField field = .ok arg)
    (hsplit : splitChar ',' field.argTag = pre ++ item :: post)
    (hkv : itemKeyValue item = some (k, v)) :
    (k = "required".data → (∀ x ∈ post, itemKey x ≠ some "required".data) →
      ParseBool v = some arg.Required) ∧
    (k = "shortname".data → (∀ x ∈ post, itemKey x ≠ some "shortname".data) →
      arg.ShortName = goToLower v) ∧
    (k = "defaultvalue".data → (∀ x ∈ post, itemKey x ≠ some "defaultvalue".data) →
      arg.DefaultValue = v ∧ arg.HasDefaultValue = true) ∧
    (k = "longname".data → v ≠ [] → (∀ x ∈ post, isLongNameOverride x = false) →
      arg.LongName = v) := by
  obtain ⟨hlen, hloop⟩ := ParseArgFromField_ok hok
  rw [hsplit, processItems_append_eq] at hloop
  cases hpre : processItems field.Name
      { LongName := goToLower (field.Name.take 1) ++ field.Name.drop 1 } 0 pre with
  | error e => rw [hpre] at hloop; exact absurd hloop (by simp)
  | ok a1 =>
    rw [hpre] at hloop
    have hloop2 : processItems field.Name a1 (0 + pre.length) (item :: post) = .ok arg :=
      hloop
    rw [processItems_cons] at hloop2
    cases hitem : processItem field.Name a1 (0 + pre.length) item with
    | error e => rw [hitem] at hloop2; exact absurd hloop2 (by simp)
    | ok a2 =>
      rw [hitem] at hloop2
      have hloop3 : processItems field.Name a2 (0 + pre.length + 1) post = .ok arg :=
        hloop2
      obtain ⟨k0, heq, hk0⟩ := itemKeyValue_some hkv
      have hdisp : processItem field.Name a1 (0 + pre.length) item =
          processArg a1 field.Name (goToLower k0) v := by
        unfold processItem
        rw [heq]
      rw [hdisp, hk0] at hitem
      refine ⟨?_, ?_, ?_, ?_⟩
      · intro hkk hpost
        rw [hkk, processArg_required_key] at hitem
        unfold processArgRequired at hitem
        cases hb : ParseBool v with
        | none => rw [hb] at hitem; exact absurd hitem (by simp)
        | some b =>
          rw [hb] at hitem
          injection hitem with h2
          rw [processItems_required_noitem hpost hloop3, ← h2]
      · intro hkk hpost
        rw [hkk, processArg_shortname_key] at hitem
        unfold processArgShortName at hitem
        split_ifs at hitem with hvlen
        injection hitem with h2
        rw [processItems_shortName_noitem hpost hloop3, ← h2]
      · intro hkk hpost
        rw [hkk, processArg_defaultvalue_key] at hitem
        injection hitem with h2
        obtain ⟨hd, hh⟩ := processItems_default_noitem hpost hloop3
        rw [hd, hh, ← h2]
        exact ⟨rfl, rfl⟩
      · intro hkk hv hpost
        rw [hkk, processArg_longname_key] at hitem
        injection hitem with h2
        have hset : processArgLongName a1 v = { a1 with LongName := v } := by
          unfold processArgLongName
          rw [if_pos (List.length_pos.mpr hv)]
        rw [hset] at h2
        rw [processItems_longName_noitem hpost hloop3, ← h2]

theorem last_occurrence_wins_witness :
    ({ Required := true, LongName := "bar".data } : Argument).LongName = "bar".data :=
  (last_occurrence_wins
    { Name := "Ab".data, argTag := "longname=foo,longname=bar,required=true".data }
    { Required := true, LongName := "bar".data }
    ["longname=foo".data] ("longname=bar".data) ["required=true".data]
    "longname".data "bar".data (by decide) (by decide) (by decide)).2.2.2
    rfl (by decide) (by decide)

/-- C3: without a tag-supplied default value, `attachCommonArg` returns
nil and the type assertions of `AttachBoolArg` and `AttachIntArg` panic;
those helpers complete normally exactly when the tag carries a default
value convertible to the target type. -/
theorem attach_bool_int_require_default (arg : Argument) :
    (arg.HasDefaultValue = false →
      attachCommonArg arg booleanStringToValueConverter = .ok none ∧
      attachCommonArg arg intStringToValueConverter = .ok none ∧
      AttachBoolArgDefault arg = .error .nilTypeAssertion ∧
      AttachIntArgDefault arg = .error .nilTypeAssertion) ∧
    (∀ b, AttachBoolArgDefault arg = .ok b ↔
      arg.HasDefaultValue = true ∧ ParseBool arg.DefaultValue = some b) ∧
    (∀ n, AttachIntArgDefault arg = .ok n ↔
      arg.HasDefaultValue = true ∧ Atoi arg.DefaultValue = some n) := by
  unfold AttachBoolArgDefault AttachIntArgDefault attachCommonArg
    booleanStringToValueConverter intStringToValueConverter
  cases hd : arg.HasDefaultValue
  · simp [goTypeAssertBool, goTypeAssertInt, Except.bind]
  · cases hb : ParseBool arg.DefaultValue <;> cases hi : Atoi arg.DefaultValue <;>
      simp [goTypeAssertBool, goTypeAssertInt, Except.bind, Option.map]

theorem attach_bool_int_require_default_witness :
    AttachBoolArgDefault { LongName := "verbose".data } = .error .nilTypeAssertion ∧
    AttachBoolArgDefault
      { LongName := "verbose".data, HasDefaultValue := true, DefaultValue := "true".data } =
      .ok true :=
  ⟨((attach_bool_int_require_default _).1 rfl).2.2.1,
   ((attach_bool_int_require_default _).2.1 true).mpr ⟨rfl, by decide⟩⟩

/-- C9: in `AttachStringArg`, a caller-supplied override (first element of
the variadic tail) is the effective default, whatever the tag says; with
no override, the tag-derived default (when present) is used. -/
theorem string_override_precedence (arg : Argument) (o : GoStr) (rest : List GoStr) :
    AttachStringArgDefault arg (o :: rest) = o ∧
    (arg.HasDefaultValue = true → AttachStringArgDefault arg [] = arg.DefaultValue) ∧
    (arg.HasDefaultValue = false → AttachStringArgDefault arg [] = []) := by
  unfold AttachStringArgDefault
  refine ⟨rfl, fun h => ?_, fun h => ?_⟩ <;> simp [h]

theorem string_override_precedence_witness :
    AttachStringArgDefault { HasDefaultValue := true, DefaultValue := "abc".data }
      ["xyz".data] = "xyz".data ∧
    AttachStringArgDefault { HasDefaultValue := true, DefaultValue := "abc".data }
      [] = "abc".data :=
  ⟨(string_override_precedence _ "xyz".data []).1,
   (string_override_precedence _ "xyz".data []).2.1 rfl⟩
